import Mathlib

set_option maxRecDepth 100000

/-!
Verification of the text alignment and merge engine of `hdx.utilities.text`.

Strings are modelled as `List Char`; positions are `Nat`.  The engine's
functions (`get_matching_text_in_strs`, `get_matching_text`,
`get_matching_then_nonmatching_text`) are translated from
`src/hdx/utilities/text.py`, and the block-matching primitive they rely on
(`difflib.SequenceMatcher` with an `isjunk` predicate) is translated from the
CPython standard library, since the Python code calls it directly.
-/

namespace HdxText

/-! ### Python string primitives -/

/-- Worker for `pyReplace`, structurally recursive on a fuel argument that
always equals the length of the remaining string (every step consumes at
least one character, so the fuel never runs out). -/
def pyReplaceGo (pat : List Char) : Nat → List Char → List Char
  | 0, s => s
  | fuel + 1, s =>
    match s with
    | [] => []
    | c :: rest =>
      if pat ≠ [] ∧ pat.isPrefixOf (c :: rest) then
        pyReplaceGo pat fuel ((c :: rest).drop pat.length)
      else
        c :: pyReplaceGo pat fuel rest

/-- Python `s.replace(pat, "")`: removes every non-overlapping occurrence of
`pat` from `s`, scanning left to right.  With an empty `pat`, Python returns
`s` unchanged (it inserts the empty replacement everywhere). -/
def pyReplace (s pat : List Char) : List Char :=
  pyReplaceGo pat s.length s

/-- Scanning worker for Python `s.find(sub)` / `sub in s` / `s.index(sub)`:
tries each start offset in order. -/
def pyFindAux (sub : List Char) : List Char → Nat → Option Nat
  | s, i =>
    if sub.isPrefixOf s then some i
    else
      match s with
      | [] => none
      | _ :: t => pyFindAux sub t (i + 1)

/-- Python `s.find(sub)` returning the first index at which `sub` occurs. -/
def pyFind (s sub : List Char) : Option Nat :=
  pyFindAux sub s 0

/-- Python `l[-n:]` for a string `l` and `n ≥ 1`: the last `n` characters
(the whole string when `n ≥ len(l)`). -/
def lastSuffix (l : List Char) (n : Nat) : List Char :=
  l.drop (l.length - n)

/-- Python `"".join(pieces)`. -/
def joinList (pieces : List (List Char)) : List Char :=
  pieces.foldl (fun acc p => acc ++ p) []

/-! ### `difflib.SequenceMatcher` embedding

Translated from the CPython standard library implementation used by the
repository (`SequenceMatcher(lambda x: x in ignore)` followed by
`set_seqs(a, b)` and `get_matching_blocks()`). -/

/-- A matching block `(i, j, size)`: `a[i:i+size] == b[j:j+size]`. -/
structure PyMatch where
  a : Nat
  b : Nat
  size : Nat
deriving DecidableEq, Repr

/-- Association-table update used to build `b2j`: append index `i` to the
entry of character `c` (`b2j.setdefault(elt, []).append(i)`). -/
def b2jAdd (t : List (Char × List Nat)) (c : Char) (i : Nat) :
    List (Char × List Nat) :=
  match t with
  | [] => [(c, [i])]
  | (d, js) :: rest =>
    if d = c then (d, js ++ [i]) :: rest else (d, js) :: b2jAdd rest c i

/-- Translation of `__chain_b`: build `b2j` mapping each character of `b` to its ascending
list of indices, purge junk characters (those satisfying `isjunk`, here
membership in `ignore`), and apply the autojunk heuristic (only active when
`len(b) ≥ 200`). -/
def mkB2j (ignore b : List Char) : List (Char × List Nat) :=
  let table := b.enum.foldl (fun t p => b2jAdd t p.2 p.1) []
  let table := table.filter (fun p => ¬ p.1 ∈ ignore)
  let n := b.length
  if 200 ≤ n then
    table.filter (fun p => ¬ (n / 100 + 1 < p.2.length))
  else
    table

/-- Lookup in an association list with `Nat` keys (`dict.get(k, none)`). -/
def alookup (t : List (Nat × Nat)) (k : Nat) : Option Nat :=
  match t with
  | [] => none
  | (k', v) :: rest => if k' = k then some v else alookup rest k

/-- Insert-or-replace in an association list (`d[k] = v`). -/
def ainsert (t : List (Nat × Nat)) (k v : Nat) : List (Nat × Nat) :=
  match t with
  | [] => [(k, v)]
  | (k', v') :: rest =>
    if k' = k then (k, v) :: rest else (k', v') :: ainsert rest k v

/-- State threaded through `find_longest_match`'s main loop: current best
block and the `j2len` table of run lengths ending at each `j`. -/
structure FlmState where
  besti : Nat
  bestj : Nat
  bestsize : Nat
  newj2len : List (Nat × Nat)

/-- Inner loop of `find_longest_match` over `b2j[a[i]]`: `continue` on
`j < blo`, `break` on `j ≥ bhi` (indices are ascending), otherwise extend the
run ending at `(i, j)` and update the best block on a strict improvement. -/
def flmJLoop (blo bhi i : Nat) (j2lenOld : List (Nat × Nat)) :
    List Nat → FlmState → FlmState
  | [], st => st
  | j :: rest, st =>
    if j < blo then flmJLoop blo bhi i j2lenOld rest st
    else if bhi ≤ j then st
    else
      let prev := if j = 0 then 0 else (alookup j2lenOld (j - 1)).getD 0
      let k := prev + 1
      let st' : FlmState :=
        if st.bestsize < k then
          ⟨i + 1 - k, j + 1 - k, k, ainsert st.newj2len j k⟩
        else
          ⟨st.besti, st.bestj, st.bestsize, ainsert st.newj2len j k⟩
      flmJLoop blo bhi i j2lenOld rest st'

/-- Worker for `flmExtendLeft`, structurally recursive on a fuel argument:
every iteration decrements `besti`, so fuel `besti` suffices. -/
def flmExtendLeftGo (a b : List Char) (isbjunk : Char → Bool)
    (junkPhase : Bool) (alo blo : Nat) :
    Nat → Nat → Nat → Nat → Nat × Nat × Nat
  | 0, besti, bestj, bestsize => (besti, bestj, bestsize)
  | fuel + 1, besti, bestj, bestsize =>
    if alo < besti ∧ blo < bestj ∧
        isbjunk (b.getD (bestj - 1) ' ') = junkPhase ∧
        a.getD (besti - 1) ' ' = b.getD (bestj - 1) ' ' then
      flmExtendLeftGo a b isbjunk junkPhase alo blo fuel (besti - 1)
        (bestj - 1) (bestsize + 1)
    else
      (besti, bestj, bestsize)

/-- The loop `while besti > alo and bestj > blo and isbjunk(b[bestj-1]) == junkPhase
and a[besti-1] == b[bestj-1]`: extend the best block to the left. -/
def flmExtendLeft (a b : List Char) (isbjunk : Char → Bool) (junkPhase : Bool)
    (alo blo : Nat) (besti bestj bestsize : Nat) : Nat × Nat × Nat :=
  flmExtendLeftGo a b isbjunk junkPhase alo blo besti besti bestj bestsize

/-- Worker for `flmExtendRight`, structurally recursive on a fuel argument:
every iteration increments `besti + bestsize`, which stays below `ahi`, so
fuel `ahi` suffices. -/
def flmExtendRightGo (a b : List Char) (isbjunk : Char → Bool)
    (junkPhase : Bool) (ahi bhi besti bestj : Nat) : Nat → Nat → Nat
  | 0, bestsize => bestsize
  | fuel + 1, bestsize =>
    if besti + bestsize < ahi ∧ bestj + bestsize < bhi ∧
        isbjunk (b.getD (bestj + bestsize) ' ') = junkPhase ∧
        a.getD (besti + bestsize) ' ' = b.getD (bestj + bestsize) ' ' then
      flmExtendRightGo a b isbjunk junkPhase ahi bhi besti bestj fuel
        (bestsize + 1)
    else
      bestsize

/-- The loop `while besti+bestsize < ahi and bestj+bestsize < bhi and
isbjunk(b[bestj+bestsize]) == junkPhase and
a[besti+bestsize] == b[bestj+bestsize]`: extend the best block to the
right. -/
def flmExtendRight (a b : List Char) (isbjunk : Char → Bool) (junkPhase : Bool)
    (ahi bhi : Nat) (besti bestj bestsize : Nat) : Nat :=
  flmExtendRightGo a b isbjunk junkPhase ahi bhi besti bestj ahi bestsize

/-- Translation of `SequenceMatcher.find_longest_match(alo, ahi, blo, bhi)`. -/
def findLongestMatch (a b : List Char) (b2j : List (Char × List Nat))
    (isbjunk : Char → Bool) (alo ahi blo bhi : Nat) : PyMatch :=
  let idxs := List.range' alo (ahi - alo)
  let final : FlmState :=
    idxs.foldl
      (fun st i =>
        let js := ((b2j.find? (fun p => p.1 = a.getD i ' ')).map Prod.snd).getD []
        let st' := flmJLoop blo bhi i st.newj2len js
          ⟨st.besti, st.bestj, st.bestsize, []⟩
        st')
      ⟨alo, blo, 0, []⟩
  let (besti, bestj, bestsize) :=
    flmExtendLeft a b isbjunk false alo blo final.besti final.bestj
      final.bestsize
  let bestsize := flmExtendRight a b isbjunk false ahi bhi besti bestj bestsize
  let (besti, bestj, bestsize) :=
    flmExtendLeft a b isbjunk true alo blo besti bestj bestsize
  let bestsize := flmExtendRight a b isbjunk true ahi bhi besti bestj bestsize
  ⟨besti, bestj, bestsize⟩

/-- One region of the `get_matching_blocks` work queue. -/
structure Region where
  alo : Nat
  ahi : Nat
  blo : Nat
  bhi : Nat

/-- Queue-driven loop of `get_matching_blocks`.  Python pops from the end of
the list (`queue.pop()`) and pushes the two sub-regions of a found block.
`fuel` strictly exceeds the number of loop iterations, which is bounded by
`2*len(a)+1` (regions are disjoint in `a` and every found block consumes at
least one character of `a`). -/
def gmbLoop (a b : List Char) (b2j : List (Char × List Nat))
    (isbjunk : Char → Bool) :
    Nat → List Region → List PyMatch → List PyMatch
  | 0, _, acc => acc
  | fuel + 1, queue, acc =>
    match queue.reverse with
    | [] => acc
    | r :: restRev =>
      let rest := restRev.reverse
      let m := findLongestMatch a b b2j isbjunk r.alo r.ahi r.blo r.bhi
      if m.size ≠ 0 then
        let rest :=
          if r.alo < m.a ∧ r.blo < m.b then
            rest ++ [⟨r.alo, m.a, r.blo, m.b⟩]
          else rest
        let rest :=
          if m.a + m.size < r.ahi ∧ m.b + m.size < r.bhi then
            rest ++ [⟨m.a + m.size, r.ahi, m.b + m.size, r.bhi⟩]
          else rest
        gmbLoop a b b2j isbjunk fuel rest (acc ++ [m])
      else
        gmbLoop a b b2j isbjunk fuel rest acc

/-- Lexicographic comparison of block triples, matching Python's sort on
`(i, j, size)` tuples. -/
def lexLe (m1 m2 : PyMatch) : Bool :=
  m1.a < m2.a ∨ (m1.a = m2.a ∧ (m1.b < m2.b ∨ (m1.b = m2.b ∧ m1.size ≤ m2.size)))

/-- Insertion into a lexicographically sorted list of blocks. -/
def insSorted (m : PyMatch) : List PyMatch → List PyMatch
  | [] => [m]
  | x :: t => if lexLe m x then m :: x :: t else x :: insSorted m t

/-- The sort `matching_blocks.sort()`: insertion sort by the lexicographic order (the
block triples produced by the queue loop are pairwise distinct, so this
agrees with Python's stable sort). -/
def sortBlocks (l : List PyMatch) : List PyMatch :=
  l.foldr insSorted []

/-- Second phase of `get_matching_blocks`: merge adjacent blocks and append
the `(la, lb, 0)` sentinel. -/
def mergeAdjacent (la lb : Nat) (blocks : List PyMatch) : List PyMatch :=
  let step := blocks.foldl
    (fun (st : Nat × Nat × Nat × List PyMatch) m =>
      let (i1, j1, k1, acc) := st
      if i1 + k1 = m.a ∧ j1 + k1 = m.b then
        (i1, j1, k1 + m.size, acc)
      else
        if k1 ≠ 0 then (m.a, m.b, m.size, acc ++ [⟨i1, j1, k1⟩])
        else (m.a, m.b, m.size, acc))
    (0, 0, 0, [])
  let (i1, j1, k1, acc) := step
  let acc := if k1 ≠ 0 then acc ++ [⟨i1, j1, k1⟩] else acc
  acc ++ [⟨la, lb, 0⟩]

/-- Translation of `SequenceMatcher(lambda x: x in ignore, a, b).get_matching_blocks()`. -/
def getMatchingBlocks (ignore a b : List Char) : List PyMatch :=
  let b2j := mkB2j ignore b
  let bjunk := b.filter (fun c => c ∈ ignore)
  let isbjunk : Char → Bool := fun c => c ∈ bjunk
  let raw := gmbLoop a b b2j isbjunk (2 * (a.length + b.length) + 4)
    [⟨0, a.length, 0, b.length⟩] []
  mergeAdjacent a.length b.length (sortBlocks raw)

/-! ### `get_matching_text_in_strs` (text.py lines 128-164) -/

/-- The loop `while len(text) != 0 and text[0] in end_characters: text = text[1:]`. -/
def stripLeadingIn (end_characters : List Char) : List Char → List Char
  | [] => []
  | c :: t =>
    if c ∈ end_characters then stripLeadingIn end_characters t else c :: t

/-- The loop `while len(text) != 0 and text[0] not in end_characters: text = text[1:]`;
used (through `List.reverse`) to strip from the right end. -/
def stripLeadingNotIn (end_characters : List Char) : List Char → List Char
  | [] => []
  | c :: t =>
    if c ∈ end_characters then c :: t else stripLeadingNotIn end_characters t

/-- The loop `while len(text) != 0 and text[-1] not in end_characters:
text = text[:-1]`. -/
def stripTrailingNotIn (end_characters text : List Char) : List Char :=
  (stripLeadingNotIn end_characters text.reverse).reverse

/-- The boundary trim of text.py lines 155-161: strip leading characters in
`end_characters`, then trailing characters not in `end_characters`, falling
back to the untrimmed text when the result is empty.  Applied only under
`if end_characters:` in the caller. -/
def trimText (end_characters text : List Char) : List Char :=
  let t1 := stripLeadingIn end_characters text
  let t2 := stripTrailingNotIn end_characters t1
  if t2 = [] then text else t2

/-- Translation of `get_matching_text_in_strs(a, b, match_min_size, ignore,
end_characters)`. -/
def get_matching_text_in_strs (a b : List Char) (match_min_size : Nat)
    (ignore end_characters : List Char) : List (List Char) :=
  let blocks := getMatchingBlocks ignore a b
  blocks.foldl
    (fun acc m =>
      let text := (a.drop m.a).take m.size
      let text := if end_characters ≠ [] then trimText end_characters text
        else text
      if match_min_size ≤ text.length then acc ++ [text] else acc)
    []

/-! ### `get_matching_then_nonmatching_text` (text.py lines 199-284) -/

/-- Translation of `add_separator_if_needed(text_list)` (text.py lines 220-226): append the
separator unless it is empty, the list is empty, or the last piece already
ends with the separator (Python compares `text_list[-1][-len(separator):]`
against the separator). -/
def add_separator_if_needed (separator : List Char)
    (text_list : List (List Char)) : List (List Char) :=
  if separator ≠ [] ∧ text_list ≠ [] ∧
      lastSuffix (text_list.getLastD []) separator.length ≠ separator then
    text_list ++ [separator]
  else
    text_list

/-- Lines 252-261: designate the two remainders as `(text_1, pos_1, text_2,
pos_2)`; remainder `b` comes first exactly when `pos_b > pos_a`. -/
def designate (new_a : List Char) (pos_a : Nat) (new_b : List Char)
    (pos_b : Nat) : List Char × Nat × List Char × Nat :=
  if pos_a < pos_b then (new_b, pos_b, new_a, pos_a)
  else (new_a, pos_a, new_b, pos_b)

/-- State of the walk over matched blocks (lines 262-276): output pieces so
far, running offset `pos`, and the two pending remainders (`none` once
inserted, mirroring `text_1 = None`). -/
structure WalkState where
  pieces : List (List Char)
  pos : Nat
  t1 : Option (List Char)
  t2 : Option (List Char)

/-- Body of `for text in result:` (lines 264-276): append the matched block,
then insert each still-pending truthy remainder whose position has been
reached, preceded by a separator if needed. -/
def walkStep (separator : List Char) (pos_1 pos_2 : Nat) (st : WalkState)
    (text : List Char) : WalkState :=
  let pieces := st.pieces ++ [text]
  let pos := st.pos + text.length
  let (pieces, pos, t1) :=
    match st.t1 with
    | some t =>
      if t ≠ [] ∧ pos_1 ≤ pos then
        (add_separator_if_needed separator pieces ++ [t], pos + t.length,
          (none : Option (List Char)))
      else (pieces, pos, some t)
    | none => (pieces, pos, none)
  let (pieces, pos, t2) :=
    match st.t2 with
    | some t =>
      if t ≠ [] ∧ pos_2 ≤ pos then
        (add_separator_if_needed separator pieces ++ [t], pos + t.length,
          (none : Option (List Char)))
      else (pieces, pos, some t)
    | none => (pieces, pos, none)
  ⟨pieces, pos, t1, t2⟩

/-- Lines 277-282: after the walk, a pending truthy remainder is appended
exactly when its recorded position equals `combined_len`. -/
def appendLeftover (separator : List Char) (pieces : List (List Char))
    (t : Option (List Char)) (pos combined_len : Nat) : List (List Char) :=
  match t with
  | some text =>
    if text ≠ [] ∧ pos = combined_len then
      add_separator_if_needed separator pieces ++ [text]
    else pieces
  | none => pieces

/-- All intermediate values of one pairwise step of
`get_matching_then_nonmatching_text` (the body of the `for i in
range(1, len(string_list))` loop, lines 230-283), given the matched blocks
`result`. -/
structure StepTrace where
  combined_len : Nat
  new_a : List Char
  new_b : List Char
  pos_a : Nat
  pos_b : Nat
  text_1 : List Char
  pos_1 : Nat
  text_2 : List Char
  pos_2 : Nat
  walkPieces : List (List Char)
  walkPos : Nat
  pieces : List (List Char)
  output : List Char

/-- One pairwise step of `get_matching_then_nonmatching_text`, recording all
intermediates.  `result` is the list of matched blocks computed by
`get_matching_text_in_strs(a, b, ...)`. -/
def stepCore (separator : List Char) (result : List (List Char))
    (a b : List Char) : StepTrace :=
  let combined_len := a.length + b.length
  let new_a := result.foldl (fun s text => pyReplace s text) a
  let new_b := result.foldl (fun s text => pyReplace s text) b
  let pos_a :=
    match new_a, pyFind a new_a with
    | _ :: _, some i => i
    | _, _ => combined_len
  let pos_b :=
    match new_b, pyFind b new_b with
    | _ :: _, some i => i
    | _, _ => combined_len
  let d := designate new_a pos_a new_b pos_b
  let text_1 := d.1
  let pos_1 := d.2.1
  let text_2 := d.2.2.1
  let pos_2 := d.2.2.2
  let walked := result.foldl (walkStep separator pos_1 pos_2)
    ⟨[], 0, some text_1, some text_2⟩
  let pieces := appendLeftover separator walked.pieces walked.t1 pos_1
    combined_len
  let pieces := appendLeftover separator pieces walked.t2 pos_2 combined_len
  ⟨combined_len, new_a, new_b, pos_a, pos_b, text_1, pos_1, text_2, pos_2,
    walked.pieces, walked.pos, pieces, joinList pieces⟩

/-- The accumulator update of one interleaving step:
`a = "".join(output)`. -/
def interleaveStep (separator : List Char) (match_min_size : Nat)
    (ignore end_characters : List Char) (a b : List Char) : List Char :=
  (stepCore separator
    (get_matching_text_in_strs a b match_min_size ignore end_characters)
    a b).output

/-- The accumulator update of one matching-only step:
`a = "".join(result)` (text.py line 195). -/
def matchingStep (match_min_size : Nat) (ignore end_characters : List Char)
    (a b : List Char) : List Char :=
  joinList (get_matching_text_in_strs a b match_min_size ignore end_characters)

/-- Python exception classes that matter for these functions.  `a[0]` on an
empty list raises `IndexError`; `ValueError` is the class the specification
names. -/
inductive PyErr where
  | indexError
  | valueError
deriving DecidableEq, Repr

instance {ε α : Type} [DecidableEq ε] [DecidableEq α] :
    DecidableEq (Except ε α) := fun x y =>
  match x, y with
  | .error e, .error f =>
    if h : e = f then .isTrue (by rw [h])
    else .isFalse (by intro hc; cases hc; exact h rfl)
  | .error _, .ok _ => .isFalse (by intro hc; cases hc)
  | .ok _, .error _ => .isFalse (by intro hc; cases hc)
  | .ok v, .ok w =>
    if h : v = w then .isTrue (by rw [h])
    else .isFalse (by intro hc; cases hc; exact h rfl)

/-- Translation of `get_matching_text(string_list, match_min_size, ignore, end_characters)`
(text.py lines 167-196).  `string_list[0]` on an empty list raises
`IndexError`, modelled as `Except.error`. -/
def get_matching_text (string_list : List (List Char))
    (match_min_size : Nat) (ignore end_characters : List Char) :
    Except PyErr (List Char) :=
  match string_list with
  | [] => .error .indexError
  | a :: rest =>
    .ok (rest.foldl (matchingStep match_min_size ignore end_characters) a)

/-- Translation of `get_matching_then_nonmatching_text(string_list, separator,
match_min_size, ignore, end_characters)` (text.py lines 199-284). -/
def get_matching_then_nonmatching_text (string_list : List (List Char))
    (separator : List Char) (match_min_size : Nat)
    (ignore end_characters : List Char) : Except PyErr (List Char) :=
  match string_list with
  | [] => .error .indexError
  | a :: rest =>
    .ok (rest.foldl
      (interleaveStep separator match_min_size ignore end_characters) a)

/-! ### Declared defaults (text.py lines 167-172 and 199-204) -/

/-- Default `match_min_size` of `get_matching_text`. -/
def get_matching_text_default_match_min_size : Nat := 30

/-- Default `ignore` of `get_matching_text`. -/
def get_matching_text_default_ignore : List Char := []

/-- Default `end_characters` of `get_matching_text` (text.py line 171:
`".!\r\n"`). -/
def get_matching_text_default_end_characters : List Char :=
  ['.', '!', '\r', '\n']

/-- Calling `get_matching_text(string_list)` with every optional argument left at its
declared default. -/
def get_matching_text_with_defaults (string_list : List (List Char)) :
    Except PyErr (List Char) :=
  get_matching_text string_list get_matching_text_default_match_min_size
    get_matching_text_default_ignore get_matching_text_default_end_characters

/-! ### Definition following the specification's words (for claim C5)

The spec says the remainders are computed by removing the *first occurrence*
of each matched block; the code uses `str.replace`, which removes every
occurrence.  This definition follows the spec's words so the two can be
compared. -/

/-- Modelled from the spec: remove only the first occurrence of `pat` from
`s` ("`a` with every matched-block substring removed (first occurrence
each)"). -/
def removeFirstOccurrence (s pat : List Char) : List Char :=
  match pyFind s pat with
  | some i => s.take i ++ s.drop (i + pat.length)
  | none => s

/-! ### Helper lemmas -/

/-- Every list is a prefix of itself (`Bool` version used by `pyFind`). -/
theorem isPrefixOf_self (l : List Char) : l.isPrefixOf l = true := by
  induction l with
  | nil => rfl
  | cons c t ih => simp [List.isPrefixOf, ih]

/-- Python `s.find(s)` is `0`: a string occurs in itself at offset `0`. -/
theorem pyFind_self (l : List Char) : pyFind l l = some 0 := by
  unfold pyFind
  unfold pyFindAux
  simp [isPrefixOf_self]

/-- When the matched-block list is empty, the interleaving step produces the
empty string: the walk never runs, so neither remainder's insertion check is
ever made, and the final append fires only at the sentinel position, which
neither remainder has. -/
theorem stepCore_nil_output (sep a b : List Char) :
    (stepCore sep [] a b).output = [] := by
  cases a with
  | nil =>
    cases b with
    | nil =>
      simp [stepCore, designate, appendLeftover, joinList]
    | cons y ys =>
      simp [stepCore, designate, appendLeftover, joinList, pyFind_self]
  | cons x xs =>
    cases b with
    | nil =>
      simp [stepCore, designate, appendLeftover, joinList, pyFind_self]
    | cons y ys =>
      have h : ¬ (0 = xs.length + 1 + (ys.length + 1)) := by omega
      simp [stepCore, designate, appendLeftover, joinList, pyFind_self, h]

/-- Stripping from the front while the head is outside the boundary set
empties any list none of whose characters is in the boundary set. -/
theorem stripLeadingNotIn_all_out (end_characters : List Char) :
    ∀ l : List Char, (∀ c ∈ l, c ∉ end_characters) →
      stripLeadingNotIn end_characters l = [] := by
  intro l
  induction l with
  | nil => intro _; rfl
  | cons c t ih =>
    intro h
    have hc : c ∉ end_characters := h c (List.mem_cons_self c t)
    simp only [stripLeadingNotIn, if_neg hc]
    exact ih fun x hx => h x (List.mem_cons_of_mem c hx)

/-- The last element of `l ++ [x]` with a default is `x`. -/
theorem getLastD_append_single {α : Type} (d x : α) :
    ∀ l : List α, (l ++ [x]).getLastD d = x := by
  intro l
  induction l with
  | nil => rfl
  | cons c t ih =>
    cases t with
    | nil => rfl
    | cons e u => simpa using ih

/-- Generic form of the min-size filter loop of
`get_matching_text_in_strs`: everything the fold appends has length at least
`m`, so everything in the result does, provided the initial accumulator
satisfies the bound. -/
theorem foldl_append_if_min {α : Type} (m : Nat) (g : α → List Char) :
    ∀ (blocks : List α) (acc : List (List Char)),
      (∀ t ∈ acc, m ≤ t.length) →
      ∀ t ∈ blocks.foldl
          (fun acc2 mb => if m ≤ (g mb).length then acc2 ++ [g mb] else acc2)
          acc,
        m ≤ t.length := by
  intro blocks
  induction blocks with
  | nil =>
    intro acc hacc t ht
    exact hacc t (by simpa using ht)
  | cons mb rest ih =>
    intro acc hacc t ht
    rw [List.foldl_cons] at ht
    refine ih _ ?_ t ht
    intro u hu
    by_cases hc : m ≤ (g mb).length
    · rw [if_pos hc] at hu
      rcases List.mem_append.mp hu with h1 | h2
      · exact hacc u h1
      · rw [List.mem_singleton] at h2
        subst h2
        exact hc
    · rw [if_neg hc] at hu
      exact hacc u hu

/-! ### Claim theorems -/

/-- C1, amended: for every pairwise step in which no matching blocks survive,
the interleaved step's result is the empty string — both full remainders are
dropped rather than positioned per the tie-break rule — and for
`get_matching_text` the result of such a step is likewise the empty string;
input text is lost on the interleaved path when the match set is empty. -/
theorem c1_empty_match_step (separator : List Char) (match_min_size : Nat)
    (ignore end_characters a b : List Char)
    (h : get_matching_text_in_strs a b match_min_size ignore end_characters
      = []) :
    interleaveStep separator match_min_size ignore end_characters a b = [] ∧
    matchingStep match_min_size ignore end_characters a b = [] := by
  unfold interleaveStep matchingStep
  rw [h]
  exact ⟨stepCore_nil_output separator a b, rfl⟩

/-- C1, witness: the pair `("xxx", "yyy")` has no matching blocks at
`match_min_size = 1`, and the step results are empty. -/
theorem c1_empty_match_step_witness :
    get_matching_text_in_strs ("xxx".data) ("yyy".data) 1 [] [] = [] ∧
    interleaveStep ("|".data) 1 [] [] ("xxx".data) ("yyy".data) = [] ∧
    matchingStep 1 [] [] ("xxx".data) ("yyy".data) = [] :=
  ⟨by decide,
    c1_empty_match_step ("|".data) 1 [] [] ("xxx".data) ("yyy".data)
      (by decide)⟩

/-- C1, counterexample to the claim as stated: on `["xxx", "yyy"]` with
separator `"|"` no matching blocks survive, yet the interleaved result is the
empty string, not the two full remainders `"xxx|yyy"`. -/
theorem c1_counterexample :
    get_matching_text_in_strs ("xxx".data) ("yyy".data) 1 [] [] = [] ∧
    get_matching_then_nonmatching_text ["xxx".data, "yyy".data] ("|".data)
      1 [] [] = Except.ok [] ∧
    get_matching_then_nonmatching_text ["xxx".data, "yyy".data] ("|".data)
      1 [] [] ≠ Except.ok ("xxx|yyy".data) :=
  ⟨by decide, by decide, by decide⟩

/-- C2, amended: for the empty input list, both `get_matching_text` and
`get_matching_then_nonmatching_text` fail with an IndexError — raised by
`string_list[0]` and surfaced to the caller, not silently defaulted — rather
than a ValueError-class error. -/
theorem c2_empty_list_raises :
    get_matching_text [] 30 [] get_matching_text_default_end_characters
      = Except.error PyErr.indexError ∧
    get_matching_then_nonmatching_text [] [] 30 []
      get_matching_text_default_end_characters
      = Except.error PyErr.indexError :=
  ⟨rfl, rfl⟩

/-- C2, counterexample to the claim as stated: the error raised on the empty
input list is an IndexError, which is not of the ValueError class. -/
theorem c2_counterexample :
    get_matching_text [] 30 [] get_matching_text_default_end_characters
      ≠ Except.error PyErr.valueError ∧
    get_matching_then_nonmatching_text [] [] 30 []
      get_matching_text_default_end_characters
      ≠ Except.error PyErr.valueError ∧
    PyErr.indexError ≠ PyErr.valueError :=
  ⟨by decide, by decide, by decide⟩

/-- C3, amended: `get_matching_then_nonmatching_text(["ABC-unique1",
"ABC-unique2"], separator="|", match_min_size=1)` (with the default
`end_characters=".!\r\n"`) returns `"ABC-unique|1|2"`: the matched block is
`"ABC-unique"` (not `"ABC-"`), followed by the remainder of `a` (`"1"`) and
then the remainder of `b` (`"2"`) per the position tie-break, with the
separator inserted before each remainder. -/
theorem c3_concrete_scenario :
    get_matching_then_nonmatching_text
      ["ABC-unique1".data, "ABC-unique2".data] ("|".data) 1 []
      (['.', '!', '\r', '\n']) = Except.ok ("ABC-unique|1|2".data) := by
  decide

/-- C3, counterexample to the claim as stated: the call does not return
`"ABC-unique2|unique1"`. -/
theorem c3_counterexample :
    get_matching_then_nonmatching_text
      ["ABC-unique1".data, "ABC-unique2".data] ("|".data) 1 []
      (['.', '!', '\r', '\n']) ≠ Except.ok ("ABC-unique2|unique1".data) := by
  decide

/-- C4, amended: if `pos_b > pos_a` then `b`'s remainder is designated
`text_1` and `a`'s remainder `text_2`; otherwise — including the tie
`pos_b == pos_a` — `a`'s remainder is designated `text_1`.  The designation
is deterministic and favors `a` on equal positions, and at each walk step the
`text_1` insertion check precedes the `text_2` check; on a tie `a`'s
remainder is inserted first (concrete run `["AqB", "ArB"]`).  The designation
does not fix the physical insertion order: `text_2` is inserted earlier
whenever its position is reached first (see the counterexample). -/
theorem c4_designation :
    (∀ (na : List Char) (pa : Nat) (nb : List Char) (pb : Nat), pa < pb →
      designate na pa nb pb = (nb, pb, na, pa)) ∧
    (∀ (na : List Char) (pa : Nat) (nb : List Char) (pb : Nat), ¬ pa < pb →
      designate na pa nb pb = (na, pa, nb, pb)) ∧
    get_matching_then_nonmatching_text ["AqB".data, "ArB".data] ("|".data)
      1 [] [] = Except.ok ("A|q|rB".data) := by
  refine ⟨?_, ?_, by decide⟩
  · intro na pa nb pb h
    simp [designate, h]
  · intro na pa nb pb h
    simp [designate, h]

/-- C4, witness: the designation rule at concrete positions, for both the
strict case and the tie case. -/
theorem c4_designation_witness :
    ((1 : Nat) < 2 ∧
      designate ("x".data) 1 ("yy".data) 2 = ("yy".data, 2, "x".data, 1)) ∧
    (¬ (5 : Nat) < 5 ∧
      designate ("x".data) 5 ("yy".data) 5 = ("x".data, 5, "yy".data, 5)) :=
  ⟨⟨by decide, c4_designation.1 ("x".data) 1 ("yy".data) 2 (by decide)⟩,
    ⟨by decide, c4_designation.2.1 ("x".data) 5 ("yy".data) 5 (by decide)⟩⟩

/-- C4, counterexample to the claim as stated: for `["AxB", "AByy"]` we have
`pos_b = 2 > pos_a = 1`, so `b`'s remainder `"yy"` is designated `text_1`;
yet in the output `"A|xB|yy"` the remainder of `a` (`"x"`, at index 2) is
physically inserted before the remainder of `b` (`"yy"`, at index 5), so
`text_1` is not "inserted first". -/
theorem c4_counterexample :
    (let T := stepCore ("|".data)
      (get_matching_text_in_strs ("AxB".data) ("AByy".data) 1 [] [])
      ("AxB".data) ("AByy".data)
    T.pos_a = 1 ∧ T.pos_b = 2 ∧ T.pos_a < T.pos_b ∧
      T.text_1 = "yy".data ∧ T.text_2 = "x".data ∧
      T.output = "A|xB|yy".data) ∧
    pyFind ("A|xB|yy".data) ("x".data) = some 2 ∧
    pyFind ("A|xB|yy".data) ("yy".data) = some 5 ∧ (2 : Nat) < 5 := by
  decide

/-- C5, amended: in every interleaving step `new_a` is the accumulator `a`
with, for each matched block in turn, every non-overlapping occurrence
removed left to right (Python `str.replace(text, "")` semantics), and
`new_b` analogously — not just the first occurrence of each block.  On
`["abXab", "ab"]` with matched block `"ab"` this removes both occurrences,
giving `new_a = "X"` and output `"abX"`. -/
theorem c5_replace_removes_all_occurrences :
    (∀ (sep : List Char) (result : List (List Char)) (a b : List Char),
      (stepCore sep result a b).new_a
          = result.foldl (fun s text => pyReplace s text) a ∧
        (stepCore sep result a b).new_b
          = result.foldl (fun s text => pyReplace s text) b) ∧
    (let T := stepCore []
      (get_matching_text_in_strs ("abXab".data) ("ab".data) 2 [] [])
      ("abXab".data) ("ab".data)
    get_matching_text_in_strs ("abXab".data) ("ab".data) 2 [] []
        = ["ab".data] ∧
      T.new_a = "X".data ∧ T.new_b = []) ∧
    get_matching_then_nonmatching_text ["abXab".data, "ab".data] [] 2 [] []
      = Except.ok ("abX".data) := by
  exact ⟨fun sep result a b => ⟨rfl, rfl⟩, by decide, by decide⟩

/-- C5, counterexample to the claim as stated: on `["abXab", "ab"]` the code
computes `new_a = "X"` (both occurrences of the matched block `"ab"`
removed), while removing only the first occurrence of each matched block
would give `"Xab"`. -/
theorem c5_counterexample :
    (stepCore []
      (get_matching_text_in_strs ("abXab".data) ("ab".data) 2 [] [])
      ("abXab".data) ("ab".data)).new_a = "X".data ∧
    (get_matching_text_in_strs ("abXab".data) ("ab".data) 2 [] []).foldl
      removeFirstOccurrence ("abXab".data) = "Xab".data ∧
    ("X".data : List Char) ≠ "Xab".data := by
  decide

/-- C6, amended: `get_matching_text` has defaults `match_min_size=30`,
`ignore=""` and `end_characters=".!\r\n"` — so by default boundary trimming
IS applied on the matching-only path: with both inputs equal to a 33-character
string ending in `".xy"`, the default call trims the matched block back to
the `'.'`, while an explicit `end_characters=""` returns the block
untrimmed. -/
theorem c6_defaults :
    get_matching_text_default_match_min_size = 30 ∧
    get_matching_text_default_ignore = [] ∧
    get_matching_text_default_end_characters = ['.', '!', '\r', '\n'] ∧
    get_matching_text_with_defaults
        ["ABCDEFGHIJKLMNOPQRSTUVWXYZabcd.xy".data,
          "ABCDEFGHIJKLMNOPQRSTUVWXYZabcd.xy".data]
      = Except.ok ("ABCDEFGHIJKLMNOPQRSTUVWXYZabcd.".data) ∧
    get_matching_text
        ["ABCDEFGHIJKLMNOPQRSTUVWXYZabcd.xy".data,
          "ABCDEFGHIJKLMNOPQRSTUVWXYZabcd.xy".data] 30 [] []
      = Except.ok ("ABCDEFGHIJKLMNOPQRSTUVWXYZabcd.xy".data) := by
  exact ⟨rfl, rfl, rfl, by decide, by decide⟩

/-- C6, counterexample to the claim as stated: the default `end_characters`
of `get_matching_text` is `".!\r\n"`, not the empty string, and the default
call's result differs from the result with `end_characters=""` — boundary
trimming is applied by default. -/
theorem c6_counterexample :
    get_matching_text_default_end_characters ≠ [] ∧
    get_matching_text_with_defaults
        ["ABCDEFGHIJKLMNOPQRSTUVWXYZabcd.xy".data,
          "ABCDEFGHIJKLMNOPQRSTUVWXYZabcd.xy".data]
      ≠ get_matching_text
        ["ABCDEFGHIJKLMNOPQRSTUVWXYZabcd.xy".data,
          "ABCDEFGHIJKLMNOPQRSTUVWXYZabcd.xy".data] 30 [] [] := by
  exact ⟨by decide, by decide⟩

/-- C7, amended: for every text and non-empty boundary set, trimming strips
leading characters while they are in the boundary set, then trailing
characters while they are not in the boundary set, and falls back to the
original text if that leaves nothing; hence the trim never maps a non-empty
text to the empty string, and with `end_characters="."` a block containing
no `'.'` trims to exactly the original block (which is therefore non-empty
whenever the block is). -/
theorem c7_boundary_trim :
    (∀ (end_characters text : List Char),
      trimText end_characters text = [] → text = []) ∧
    (∀ text : List Char, '.' ∉ text → trimText ['.'] text = text) := by
  constructor
  · intro endc text h
    by_cases h2 : stripTrailingNotIn endc (stripLeadingIn endc text) = []
    · simpa [trimText, h2] using h
    · simp only [trimText, if_neg h2] at h
      exact absurd h h2
  · intro text h
    cases text with
    | nil => rfl
    | cons c t =>
      have hc : c ∉ (['.'] : List Char) := by
        intro hmem
        rw [List.mem_singleton] at hmem
        apply h
        rw [← hmem]
        exact List.mem_cons_self c t
      have hlead : stripLeadingIn ['.'] (c :: t) = c :: t := by
        simp only [stripLeadingIn, if_neg hc]
      have htrail : stripTrailingNotIn ['.'] (c :: t) = [] := by
        unfold stripTrailingNotIn
        rw [stripLeadingNotIn_all_out]
        · rfl
        · intro x hx
          rw [List.mem_reverse] at hx
          intro hmem
          rw [List.mem_singleton] at hmem
          subst hmem
          exact h hx
      simp [trimText, hlead, htrail]

/-- C7, witness: a non-empty block with no `'.'` trims (with boundary set
`"."`) to itself. -/
theorem c7_boundary_trim_witness :
    ('.' ∉ ("abc" : String).data) ∧
    trimText ['.'] ("abc".data) = "abc".data :=
  ⟨by decide, c7_boundary_trim.2 ("abc".data) (by decide)⟩

/-- C7, counterexample to the claim as stated: the empty block contains no
`'.'`, and its trimmed result equals the original block but IS the empty
string, so "never the empty string" fails for it (the zero-size sentinel
block does pass through the trim in `get_matching_text_in_strs`). -/
theorem c7_counterexample :
    ('.' ∉ ([] : List Char)) ∧ trimText ['.'] [] = [] :=
  ⟨by decide, rfl⟩

/-- C8, amended: the separator is never appended when the most recently
appended piece already ends with the separator, never before the very first
piece, and never when it is empty — the code's check inspects only the last
piece's suffix (`text_list[-1][-len(separator):]`), so a remainder that
itself ends with the separator is never immediately followed by an inserted
separator.  (When the separator's characters span two adjacent pieces the
check does not fire and a doubled separator can still occur — see the
counterexample.) -/
theorem c8_separator_rule :
    (∀ sep : List Char, add_separator_if_needed sep [] = []) ∧
    (∀ tl : List (List Char), add_separator_if_needed [] tl = tl) ∧
    (∀ (sep : List Char) (pieces : List (List Char)) (lastPiece : List Char),
      sep ≠ [] → lastSuffix lastPiece sep.length = sep →
      add_separator_if_needed sep (pieces ++ [lastPiece])
        = pieces ++ [lastPiece]) := by
  refine ⟨?_, ?_, ?_⟩
  · intro sep
    simp [add_separator_if_needed]
  · intro tl
    simp [add_separator_if_needed]
  · intro sep pieces lastPiece hsep hsuf
    have hlast : (pieces ++ [lastPiece]).getLastD ([] : List Char)
        = lastPiece := getLastD_append_single [] lastPiece pieces
    simp [add_separator_if_needed, hlast, hsuf]

/-- C8, witness: a piece ending with the separator receives no further
separator. -/
theorem c8_separator_rule_witness :
    (("|".data : List Char) ≠ []) ∧
    lastSuffix ("x|".data) ("|".data).length = "|".data ∧
    add_separator_if_needed ("|".data) ([] ++ ["x|".data])
      = [] ++ ["x|".data] :=
  ⟨by decide, by decide,
    c8_separator_rule.2.2 ("|".data) [] ("x|".data) (by decide) (by decide)⟩

/-- C8, counterexample to the claim as stated: on `["Qzab", "XQbY"]` with
separator `"ab"`, when the final separator piece (index 4) is appended, the
output built so far is `"Qabzab"`, which already ends with the separator —
the check looks only at the last piece `"b"` — and the final output
`"QabzababXY"` contains the doubled separator `"abab"`. -/
theorem c8_counterexample :
    (let T := stepCore ("ab".data)
      (get_matching_text_in_strs ("Qzab".data) ("XQbY".data) 1 [] [])
      ("Qzab".data) ("XQbY".data)
    T.pieces = ["Q".data, "ab".data, "za".data, "b".data, "ab".data,
        "XY".data] ∧
      joinList (T.pieces.take 4) = "Qabzab".data ∧
      lastSuffix ("Qabzab".data) ("ab".data).length = "ab".data ∧
      T.pieces.getD 4 [] = "ab".data ∧
      T.output = "QabzababXY".data ∧
      pyFind T.output ("abab".data) = some 4) ∧
    ("ab".data ++ "ab".data : List Char) = "abab".data := by
  decide

/-- C9, amended: every block surviving pairwise matching has post-trim length
at least `match_min_size` (so a surviving block of length
`match_min_size - 1` never appears in the output); but a common substring of
length exactly `match_min_size` need not appear in the output — only
substrings selected as matching blocks do (see the counterexample). -/
theorem c9_min_size_filter (a b : List Char) (match_min_size : Nat)
    (ignore end_characters : List Char) (t : List Char)
    (ht : t ∈ get_matching_text_in_strs a b match_min_size ignore
      end_characters) :
    match_min_size ≤ t.length := by
  refine foldl_append_if_min match_min_size
    (fun mb : PyMatch =>
      if end_characters ≠ [] then
        trimText end_characters ((a.drop mb.a).take mb.size)
      else (a.drop mb.a).take mb.size)
    (getMatchingBlocks ignore a b) [] ?_ t ht
  intro u hu
  cases hu

/-- C9, witness: matching `"ab"` against itself at `match_min_size = 1`
keeps the block `"ab"`, whose length is at least `1`. -/
theorem c9_min_size_filter_witness :
    ("ab".data ∈ get_matching_text_in_strs ("ab".data) ("ab".data) 1 [] []) ∧
    1 ≤ ("ab".data : List Char).length :=
  ⟨by decide,
    c9_min_size_filter ("ab".data) ("ab".data) 1 [] [] ("ab".data)
      (by decide)⟩

/-- C9, counterexample to the claim as stated: `"c"` is a common substring of
`"abc"` and `"cab"` of length exactly `match_min_size = 1`, yet
`get_matching_text(["abc", "cab"], match_min_size=1)` returns `"ab"`, which
does not contain it — the block matcher selected `"ab"` and the partition
scheme never matches `"c"`. -/
theorem c9_counterexample :
    pyFind ("abc".data) ("c".data) = some 2 ∧
    pyFind ("cab".data) ("c".data) = some 0 ∧
    ("c".data : List Char).length = 1 ∧
    get_matching_text ["abc".data, "cab".data] 1 [] []
      = Except.ok ("ab".data) ∧
    pyFind ("ab".data) ("c".data) = none := by
  decide

/-- C10: after the walk, a pending non-empty remainder is appended exactly
when its recorded position equals `len(a) + len(b)`; and on
`["ababX", "ab"]` (`match_min_size = 2`) the remainder `"X"` of `a` has
position `4`, strictly greater than the final running offset `2` and
strictly less than `len(a) + len(b) = 7`, so it is silently omitted — the
output `"ab"` loses the non-matching text `"X"` — while on `["ab", "XabY"]`
the remainder `"XY"` has the sentinel position `6 = len(a) + len(b)` and is
appended. -/
theorem c10_leftover_append_rule :
    (∀ (sep : List Char) (pieces : List (List Char)) (t : List Char)
        (pos combined : Nat), pos ≠ combined →
      appendLeftover sep pieces (some t) pos combined = pieces) ∧
    (∀ (sep : List Char) (pieces : List (List Char)) (t : List Char)
        (pos combined : Nat), t ≠ [] → pos = combined →
      appendLeftover sep pieces (some t) pos combined
        = add_separator_if_needed sep pieces ++ [t]) ∧
    (let T := stepCore []
      (get_matching_text_in_strs ("ababX".data) ("ab".data) 2 [] [])
      ("ababX".data) ("ab".data)
    T.new_a = "X".data ∧ T.text_2 = "X".data ∧ T.pos_2 = 4 ∧
      T.walkPos = 2 ∧ T.combined_len = 7 ∧ T.walkPos < T.pos_2 ∧
      T.pos_2 < T.combined_len ∧ T.output = "ab".data ∧
      pyFind T.output ("X".data) = none) ∧
    (let U := stepCore []
      (get_matching_text_in_strs ("ab".data) ("XabY".data) 2 [] [])
      ("ab".data) ("XabY".data)
    U.text_2 = "XY".data ∧ U.pos_2 = U.combined_len ∧
      U.output = "abXY".data) ∧
    get_matching_then_nonmatching_text ["ababX".data, "ab".data] [] 2 [] []
      = Except.ok ("ab".data) := by
  refine ⟨?_, ?_, by decide, by decide, by decide⟩
  · intro sep pieces t pos combined hne
    simp [appendLeftover, hne]
  · intro sep pieces t pos combined ht heq
    simp [appendLeftover, ht, heq]

/-- C10, witness: the append rule at concrete values, in both directions. -/
theorem c10_leftover_append_rule_witness :
    ((4 : Nat) ≠ 7 ∧ appendLeftover [] [] (some ("X".data)) 4 7 = []) ∧
    (("X".data : List Char) ≠ [] ∧ (7 : Nat) = 7 ∧
      appendLeftover [] [] (some ("X".data)) 7 7
        = add_separator_if_needed [] [] ++ ["X".data]) :=
  ⟨⟨by decide,
      c10_leftover_append_rule.1 [] [] ("X".data) 4 7 (by decide)⟩,
    ⟨by decide, rfl,
      c10_leftover_append_rule.2.1 [] [] ("X".data) 7 7 (by decide) rfl⟩⟩

end HdxText


